import Mathlib

/-!
Verification of the PNG-to-JPG batch converter (`scripts/convert-png-to-jpg.py`).

The script is embedded shallowly:

* Pure helpers (`clamp_quality`, the `-square` suffix handling) become Lean
  functions over `Int` / `String`.
* The file system is an association list from paths to byte sizes; the
  mutating calls of `convert_file` (`rgb.save`, `Path.replace`,
  `Path.unlink`, `Path.mkdir`) become explicit state updates, and each one
  is additionally recorded in an event trace so that ordering properties
  (delete-after-encode) can be stated.
* PIL is an external library: decoding and JPEG encoding are modelled as an
  abstract `Codec` parameter that may fail (corrupt file, I/O error), while
  the mode/transparency dispatch of `flatten_to_rgb` and the white-background
  compositing of `Image.paste` (PIL's rounded `a*b/255` blend) are embedded
  concretely, since the claims speak about them pixelwise.
* `os.walk` discovery and `Path.cwd` are parameters of the embedded `main`
  (the discovered file list and a flag for the primary directory's
  existence).
-/

set_option autoImplicit false

namespace Png2Jpg

/-- PIL image modes that the script distinguishes; every further mode is
only ever converted directly to RGB, so it is kept abstract by name. -/
inductive PMode where
  | RGB
  | L
  | RGBA
  | LA
  | P
  | other (name : String)
deriving DecidableEq

/-- A decoded image: its PIL mode, the optional `transparency` entry of
`img.info` (the simple-transparency value of a tRNS chunk), the per-pixel
band values (`pixels.get i` lists the channel values of pixel `i` in band
order, e.g. `[r, g, b, a]` for RGBA), and the palette for `P` mode. -/
structure Img where
  mode : PMode
  transparency : Option Nat
  pixels : List (List Nat)
  palette : List (Nat × Nat × Nat)
deriving DecidableEq

/-- Channel values of one RGB pixel. -/
abbrev RGBPx := Nat × Nat × Nat

/-- Interpretation of one pixel's raw bands as RGB, following PIL's
conversion to mode RGB: `L`/`LA` replicate luminance, `P` looks the index
up in the palette, everything else takes the first three bands. -/
def toRGBpx (img : Img) (px : List Nat) : RGBPx :=
  match img.mode with
  | PMode.L => (px.getD 0 0, px.getD 0 0, px.getD 0 0)
  | PMode.LA => (px.getD 0 0, px.getD 0 0, px.getD 0 0)
  | PMode.P => img.palette.getD (px.getD 0 0) (0, 0, 0)
  | _ => (px.getD 0 0, px.getD 1 0, px.getD 2 0)

/-- The last band of a pixel, which is what `img.split()[-1]` selects
(the alpha channel for RGBA and LA). -/
def lastBand (px : List Nat) : Nat := px.getLastD 0

/-- Modelled from PIL's `MULDIV255` macro: `a * b / 255` rounded to
nearest, computed as `tmp = a*b + 128; ((tmp >> 8) + tmp) >> 8`. -/
def muldiv255 (a b : Nat) : Nat :=
  ((a * b + 128) / 256 + (a * b + 128)) / 256

/-- Modelled from PIL's `paste` blend with an 8-bit mask `m`:
`bg` weighted by `255 - m` plus `fg` weighted by `m`. -/
def blendChannel (fg bg m : Nat) : Nat :=
  muldiv255 bg (255 - m) + muldiv255 fg m

/-- One pixel of `bg.paste(img, mask=img.split()[-1])` with a white
background: each RGB channel of the pixel is blended against 255 using the
pixel's last band as the mask. -/
def pasteWhitePx (img : Img) (px : List Nat) : RGBPx :=
  (blendChannel (toRGBpx img px).1 255 (lastBand px),
   blendChannel (toRGBpx img px).2.1 255 (lastBand px),
   blendChannel (toRGBpx img px).2.2 255 (lastBand px))

/-- Embeds `flatten_to_rgb`: images in mode RGB or L are converted
directly; otherwise images with an alpha mode or a `transparency` info key
are pasted onto a white background with `split()[-1]` as the mask; every
remaining mode converts directly. -/
def flatten_to_rgb (img : Img) : List RGBPx :=
  if img.mode = PMode.RGB ∨ img.mode = PMode.L then
    img.pixels.map (toRGBpx img)
  else if img.mode = PMode.RGBA ∨ img.mode = PMode.LA ∨ img.transparency.isSome then
    img.pixels.map (pasteWhitePx img)
  else
    img.pixels.map (toRGBpx img)

/-- Modelled from the spec: the blend mask the spec prescribes, "the
image's own alpha/transparency data" — the alpha band for the alpha modes,
and for transparency metadata full transparency exactly on the pixels whose
value matches the `transparency` entry. -/
def specMask (img : Img) (px : List Nat) : Nat :=
  match img.mode with
  | PMode.RGBA => lastBand px
  | PMode.LA => lastBand px
  | _ =>
    match img.transparency with
    | some t => if px.getD 0 0 = t then 0 else 255
    | none => 255

/-- Modelled from the spec: compositing onto an opaque white background of
identical dimensions, using the image's own alpha/transparency data as the
blend mask. -/
def specCompositeWhite (img : Img) : List RGBPx :=
  img.pixels.map fun px =>
    (blendChannel (toRGBpx img px).1 255 (specMask img px),
     blendChannel (toRGBpx img px).2.1 255 (specMask img px),
     blendChannel (toRGBpx img px).2.2 255 (specMask img px))

/-- Modelled from the spec: the flattening policy as the spec states it —
any image with an alpha channel OR transparency metadata is composited
onto white, everything else converts directly. -/
def specFlatten (img : Img) : List RGBPx :=
  if img.mode = PMode.RGBA ∨ img.mode = PMode.LA ∨ img.transparency.isSome then
    specCompositeWhite img
  else
    img.pixels.map (toRGBpx img)

/-- Embeds `clamp_quality`: `max(40, min(95, value))` on Python integers. -/
def clamp_quality (value : Int) : Int :=
  max 40 (min 95 value)

/-- A path on disk, split the way `pathlib` exposes it to this script: the
directory components, the stem, and the extension (`.suffix`). -/
structure FsPath where
  dir : List String
  stem : String
  ext : String
deriving DecidableEq

/-- Embeds `Path.with_suffix`: same directory and stem, new extension. -/
def FsPath.withSuffix (p : FsPath) (e : String) : FsPath :=
  { p with ext := e }

/-- Printable form of a path, used for log lines. -/
def pathStr (p : FsPath) : String :=
  String.intercalate "/" p.dir ++ "/" ++ p.stem ++ p.ext

/-- One line printed by `log(...)`, with its `[png2jpg]` prefix. -/
def mkLog (msg : String) : String := "[png2jpg] " ++ msg

/-- The file system: an association list from paths to byte sizes. -/
abbrev FS := List (FsPath × Nat)

/-- Size of the file at `p`, `none` when no such file exists. -/
def fsLookup : FS → FsPath → Option Nat
  | [], _ => none
  | (k, n) :: rest, p => if k = p then some n else fsLookup rest p

/-- Embeds `Path.exists`. -/
def fsExists (fs : FS) (p : FsPath) : Bool :=
  (fsLookup fs p).isSome

/-- Removes every entry for `p`. -/
def fsRemove : FS → FsPath → FS
  | [], _ => []
  | (k, n) :: rest, p =>
    if k = p then fsRemove rest p else (k, n) :: fsRemove rest p

/-- Creates or overwrites the file at `p` with `n` bytes. -/
def fsSave (fs : FS) (p : FsPath) (n : Nat) : FS :=
  (p, n) :: fsRemove fs p

/-- Embeds `Path.replace`: move `src` over `dst` (a no-op here when `src`
is missing; the script only calls it on a file it has just written). -/
def fsMove (fs : FS) (src dst : FsPath) : FS :=
  match fsLookup fs src with
  | some n => fsSave (fsRemove fs src) dst n
  | none => fs

/-- Embeds `Path.unlink`. -/
def fsUnlink (fs : FS) (p : FsPath) : FS :=
  fsRemove fs p

/-- Embeds `Path.stat().st_size`, failing like Python when the file is
missing. -/
def fsStat (fs : FS) (p : FsPath) : Except String Nat :=
  match fsLookup fs p with
  | some n => Except.ok n
  | none => Except.error "No such file or directory"

/-- The mutating file-system calls of `convert_file`, recorded in order. -/
inductive FsEvent where
  | save (p : FsPath) (size : Nat)
  | mkdir (d : List String)
  | move (src dst : FsPath)
  | unlink (p : FsPath)
deriving DecidableEq

/-- PIL, modelled as an abstract codec: `decode` is `Image.open` together
with the lazy pixel read (it may fail on a corrupt file), `encodedSize` is
`rgb.save(...)` (it may fail on an I/O error, and otherwise yields the byte
size of the JPEG written at the given path from the given RGB buffer at the
given quality). -/
structure Codec where
  decode : FsPath → Except String Img
  encodedSize : FsPath → List RGBPx → Int → Except String Nat

/-- Embeds the status component of `convert_file`'s result tuple. -/
inductive Status where
  | skipped
  | converted
deriving DecidableEq

/-- Result of one `convert_file` call as the caller's `try` sees it:
either the returned `(status, input_size, output_size)` tuple or the
exception that escaped. -/
inductive CFOut where
  | ok (status : Status) (inputSize outputSize : Nat)
  | err (msg : String)
deriving DecidableEq

/-- Embeds `base.endswith("-square")` (Python `str.endswith`). -/
def hasSquareSuffix (s : String) : Bool :=
  "-square".data.isSuffixOf s.data

/-- Embeds `base[: -len("-square")]`: the stem with its last 7 characters
removed. -/
def stripSquare (s : String) : String :=
  String.mk (s.data.take (s.data.length - 7))

/-- Target path of the square relocation:
`square_dir / f"{clean_base}.jpg"`. -/
def squareTarget (squareDir : List String) (stem : String) : FsPath :=
  ⟨squareDir, stripSquare stem, ".jpg"⟩

/-- Embeds the square-relocation block of `convert_file` (lines 70-78):
given the state after the JPEG was written, returns the path the JPEG ends
at, the new file system, the events performed, and the log lines printed. -/
def moveStep (force : Bool) (squareDir : List String) (jpgPath : FsPath)
    (stem : String) (moveSquare : Bool) (fs : FS) :
    FsPath × FS × List FsEvent × List String :=
  if moveSquare && hasSquareSuffix stem then
    let target := squareTarget squareDir stem
    if fsExists fs target && !force then
      (jpgPath, fs, [FsEvent.mkdir squareDir],
       [mkLog ("Exists, skip move (use --force): " ++ pathStr target)])
    else
      (target, fsMove fs jpgPath target,
       [FsEvent.mkdir squareDir, FsEvent.move jpgPath target], [])
  else
    (jpgPath, fs, [], [])

/-- Embeds `convert_file`: skip check, stat, decode, flatten, encode,
optional square move, delete of the source PNG, final stat. Exceptions
(modelled at the fallible calls) are returned as `CFOut.err` together with
the file system, events and logs at the point they were raised. -/
def convert_file (codec : Codec) (quality : Int) (force moveSquare : Bool)
    (squareDir : List String) (pngPath : FsPath) (fs : FS) :
    CFOut × FS × List FsEvent × List String :=
  let jpgPath := pngPath.withSuffix ".jpg"
  if fsExists fs jpgPath && !force then
    (CFOut.ok Status.skipped 0 0, fs, [], [])
  else
    match fsStat fs pngPath with
    | Except.error e => (CFOut.err e, fs, [], [])
    | Except.ok inputSize =>
      match codec.decode pngPath with
      | Except.error e => (CFOut.err e, fs, [], [])
      | Except.ok img =>
        match codec.encodedSize jpgPath (flatten_to_rgb img) quality with
        | Except.error e => (CFOut.err e, fs, [], [])
        | Except.ok encSize =>
          let fs1 := fsSave fs jpgPath encSize
          let m := moveStep force squareDir jpgPath pngPath.stem moveSquare fs1
          let fs2 := fsUnlink m.2.1 pngPath
          let events := FsEvent.save jpgPath encSize :: m.2.2.1 ++ [FsEvent.unlink pngPath]
          match fsStat fs2 m.1 with
          | Except.error e => (CFOut.err e, fs2, events, m.2.2.2)
          | Except.ok outputSize =>
            (CFOut.ok Status.converted inputSize outputSize, fs2, events, m.2.2.2)

/-- Scans an event trace and checks that every `unlink` of `src` comes
strictly after some `save` to `jpg`; `seen` records whether such a save has
occurred yet. -/
def unlinkOnlyAfterSaveAux (jpg src : FsPath) (seen : Bool) : List FsEvent → Bool
  | [] => true
  | FsEvent.save p _ :: rest =>
    unlinkOnlyAfterSaveAux jpg src (if p = jpg then true else seen) rest
  | FsEvent.unlink p :: rest =>
    (if p = src then seen else true) && unlinkOnlyAfterSaveAux jpg src seen rest
  | _ :: rest => unlinkOnlyAfterSaveAux jpg src seen rest

/-- Every deletion of `src` in the trace is preceded by an encode to
`jpg`. -/
def unlinkOnlyAfterSave (jpg src : FsPath) (ev : List FsEvent) : Bool :=
  unlinkOnlyAfterSaveAux jpg src false ev

/-- Scans an event trace and checks that no `move` occurs after an
`unlink` of `src`. -/
def noMoveAfterUnlinkAux (src : FsPath) (unlinked : Bool) : List FsEvent → Bool
  | [] => true
  | FsEvent.unlink p :: rest =>
    noMoveAfterUnlinkAux src (if p = src then true else unlinked) rest
  | FsEvent.move _ _ :: rest => !unlinked && noMoveAfterUnlinkAux src unlinked rest
  | _ :: rest => noMoveAfterUnlinkAux src unlinked rest

/-- The optional move is never performed after the source was deleted. -/
def noMoveAfterUnlink (src : FsPath) (ev : List FsEvent) : Bool :=
  noMoveAfterUnlinkAux src false ev

/-- The running counters of `main`'s loop. -/
structure Totals where
  converted : Nat
  skipped : Nat
  errors : Nat
  savedTotal : Nat
deriving DecidableEq

/-- Embeds `max(0, input_size - output_size)` on Python integers. -/
def savedDelta (inputSize outputSize : Nat) : Nat :=
  (max 0 ((inputSize : Int) - (outputSize : Int))).toNat

/-- Embeds one iteration's counter update of `main`'s loop. -/
def bumpTotals (t : Totals) (out : CFOut) : Totals :=
  match out with
  | CFOut.ok Status.converted i o =>
    { t with converted := t.converted + 1,
             savedTotal := t.savedTotal + savedDelta i o }
  | CFOut.ok Status.skipped _ _ => { t with skipped := t.skipped + 1 }
  | CFOut.err _ => { t with errors := t.errors + 1 }

/-- Log lines one loop iteration appends: `convert_file`'s own output,
then the `Error:` line when an exception was caught. -/
def stepLogs (f : FsPath) (out : CFOut) (lg : List String) : List String :=
  match out with
  | CFOut.err e => lg ++ [mkLog ("Error: " ++ pathStr f ++ " " ++ e)]
  | _ => lg

/-- Embeds the `for f in files:` loop of `main` (lines 114-126): every
file goes through `convert_file` inside a `try`, counters are bumped,
errors are logged with the offending path, and the loop continues. The
per-file outcomes are also returned in order. -/
def processFiles (codec : Codec) (quality : Int) (force moveSquare : Bool)
    (squareDir : List String) :
    List FsPath → FS → Totals → List String →
    Totals × FS × List String × List CFOut
  | [], fs, t, logs => (t, fs, logs, [])
  | f :: rest, fs, t, logs =>
    let r := convert_file codec quality force moveSquare squareDir f fs
    let tail := processFiles codec quality force moveSquare squareDir rest
      r.2.1 (bumpTotals t r.1) (logs ++ stepLogs f r.1 r.2.2.2)
    (tail.1, tail.2.1, tail.2.2.1, r.1 :: tail.2.2.2)

/-- The parsed command-line options. -/
structure Args where
  force : Bool
  quality : Int
  moveSquare : Bool

/-- The square-output directory, `<cwd>/public/square`. -/
def squareDirPath : List String := ["public", "square"]

/-- Embeds `main` after argument parsing: the existence check of the
primary image directory, the clamped quality, the conversion loop, and the
exit status (`1` when the directory is missing or any error occurred,
`0` otherwise). Discovery (`os.walk`) is external, so the discovered file
list and the directory-existence flag are parameters. Returns the exit
code, the final counters, the final file system and the log lines. -/
def mainRun (codec : Codec) (args : Args) (imagesRootExists : Bool)
    (files : List FsPath) (fs : FS) : Nat × Totals × FS × List String :=
  if !imagesRootExists then
    (1, ⟨0, 0, 0, 0⟩, fs, [mkLog "Images directory not found: public/images"])
  else
    let r := processFiles codec (clamp_quality args.quality) args.force
      args.moveSquare squareDirPath files fs ⟨0, 0, 0, 0⟩ []
    ((if r.1.errors = 0 then 0 else 1), r.1, r.2.1, r.2.2.1)

/-- Number of outcomes the `except` branch caught. -/
def countErrs (res : List CFOut) : Nat :=
  res.countP fun o =>
    match o with
    | CFOut.err _ => true
    | _ => false

/-- Contribution of one outcome to the byte-savings total. -/
def savedOf (out : CFOut) : Nat :=
  match out with
  | CFOut.ok Status.converted i o => savedDelta i o
  | _ => 0

/-! ### Helper lemmas about the file-system model -/

theorem fsLookup_remove (fs : FS) (p q : FsPath) :
    fsLookup (fsRemove fs p) q = if q = p then none else fsLookup fs q := by
  induction fs with
  | nil => simp [fsRemove, fsLookup]
  | cons hd tl ih =>
    obtain ⟨k, n⟩ := hd
    by_cases hk : k = p
    · have hrw : fsRemove ((k, n) :: tl) p = fsRemove tl p := by
        simp [fsRemove, hk]
      rw [hrw, ih]
      by_cases hq : q = p
      · simp [hq]
      · have hkq : ¬ k = q := by
          intro h
          exact hq (by rw [← h, hk])
        simp [hq, fsLookup, hkq]
    · have hrw : fsRemove ((k, n) :: tl) p = (k, n) :: fsRemove tl p := by
        simp [fsRemove, hk]
      rw [hrw]
      simp only [fsLookup]
      by_cases hkq : k = q
      · have hqp : ¬ q = p := by
          intro h
          exact hk (by rw [hkq, h])
        simp [hkq, hqp]
      · simp [hkq, ih]

theorem fsLookup_save (fs : FS) (p : FsPath) (n : Nat) (q : FsPath) :
    fsLookup (fsSave fs p n) q = if p = q then some n else fsLookup fs q := by
  simp only [fsSave, fsLookup]
  by_cases h : p = q
  · simp [h]
  · have hq : ¬ q = p := fun hh => h hh.symm
    simp only [if_neg h]
    rw [fsLookup_remove, if_neg hq]

theorem fsStat_ok_iff (fs : FS) (p : FsPath) (n : Nat) :
    fsStat fs p = Except.ok n ↔ fsLookup fs p = some n := by
  unfold fsStat
  cases fsLookup fs p <;> simp

theorem fsExists_of_stat_ok {fs : FS} {p : FsPath} {n : Nat}
    (h : fsStat fs p = Except.ok n) : fsExists fs p = true := by
  rw [fsStat_ok_iff] at h
  simp [fsExists, h]

theorem fsExists_unlink_self (fs : FS) (p : FsPath) :
    fsExists (fsUnlink fs p) p = false := by
  simp [fsExists, fsUnlink, fsLookup_remove]

/-! ### Helper lemmas about the blend arithmetic -/

theorem muldiv255_zero (a : Nat) : muldiv255 a 0 = 0 := by
  simp [muldiv255]

set_option maxRecDepth 8192 in
theorem muldiv255_id (a : Nat) (h : a ≤ 255) : muldiv255 a 255 = a := by
  have hb : ∀ b, b < 256 → muldiv255 b 255 = b := by decide
  exact hb a (by omega)

theorem blendChannel_opaque (c : Nat) (h : c ≤ 255) :
    blendChannel c 255 255 = c := by
  have h0 : (255 : Nat) - 255 = 0 := rfl
  simp [blendChannel, h0, muldiv255_zero, muldiv255_id c h]

theorem blendChannel_transparent (c : Nat) : blendChannel c 255 0 = 255 := by
  have h255 : muldiv255 255 255 = 255 := by decide
  simp [blendChannel, muldiv255_zero, h255]

theorem getD_le_255 (l : List Nat) (i : Nat) (h : ∀ c ∈ l, c ≤ 255) :
    l[i]?.getD 0 ≤ 255 := by
  induction l generalizing i with
  | nil => simp
  | cons c rest ih =>
    cases i with
    | zero => simpa using h c (List.mem_cons_self c rest)
    | succ j => simpa using ih j fun x hx => h x (List.mem_cons_of_mem c hx)

/-! ### Helper lemmas about the `-square` suffix -/

set_option maxRecDepth 4096 in
theorem stripSquare_ne (s : String) (h : hasSquareSuffix s = true) :
    stripSquare s ≠ s := by
  intro he
  have hsuf : "-square".data <:+ s.data := by
    simpa [hasSquareSuffix, List.isSuffixOf_iff_suffix] using h
  have h7 : ("-square".data).length = 7 := by decide
  have hlen : 7 ≤ s.data.length := by
    have := hsuf.length_le
    omega
  have hlen2 : (stripSquare s).data.length = s.data.length - 7 := by
    show (s.data.take (s.data.length - 7)).length = s.data.length - 7
    rw [List.length_take]
    omega
  rw [he] at hlen2
  omega

/-! ### Case analysis of the square-relocation block -/

theorem moveStep_spec (force : Bool) (sqd : List String) (jp : FsPath)
    (stem : String) (ms : Bool) (fs : FS) :
    ((ms && hasSquareSuffix stem) = false ∧
      moveStep force sqd jp stem ms fs = (jp, fs, [], [])) ∨
    ((ms && hasSquareSuffix stem) = true ∧
      (fsExists fs (squareTarget sqd stem) && !force) = true ∧
      moveStep force sqd jp stem ms fs =
        (jp, fs, [FsEvent.mkdir sqd],
         [mkLog ("Exists, skip move (use --force): " ++ pathStr (squareTarget sqd stem))])) ∨
    ((ms && hasSquareSuffix stem) = true ∧
      (fsExists fs (squareTarget sqd stem) && !force) = false ∧
      moveStep force sqd jp stem ms fs =
        (squareTarget sqd stem, fsMove fs jp (squareTarget sqd stem),
         [FsEvent.mkdir sqd, FsEvent.move jp (squareTarget sqd stem)], [])) := by
  cases hc : (ms && hasSquareSuffix stem)
  · exact Or.inl ⟨rfl, by simp [moveStep, hc]⟩
  · cases ht : (fsExists fs (squareTarget sqd stem) && !force)
    · exact Or.inr (Or.inr ⟨rfl, rfl, by simp [moveStep, hc, ht]⟩)
    · exact Or.inr (Or.inl ⟨rfl, rfl, by simp [moveStep, hc, ht]⟩)

/-! ### Characterization of `convert_file` runs -/

theorem convert_file_success (codec : Codec) (q : Int) (force ms : Bool)
    (sqd : List String) (png : FsPath) (fs : FS) (isz osz : Nat)
    (hout : (convert_file codec q force ms sqd png fs).1 =
      CFOut.ok Status.converted isz osz) :
    ∃ img encSize,
      (fsExists fs (png.withSuffix ".jpg") && !force) = false ∧
      fsLookup fs png = some isz ∧
      codec.decode png = Except.ok img ∧
      codec.encodedSize (png.withSuffix ".jpg") (flatten_to_rgb img) q =
        Except.ok encSize ∧
      convert_file codec q force ms sqd png fs =
        (CFOut.ok Status.converted isz osz,
         fsUnlink (moveStep force sqd (png.withSuffix ".jpg") png.stem ms
           (fsSave fs (png.withSuffix ".jpg") encSize)).2.1 png,
         FsEvent.save (png.withSuffix ".jpg") encSize ::
           (moveStep force sqd (png.withSuffix ".jpg") png.stem ms
             (fsSave fs (png.withSuffix ".jpg") encSize)).2.2.1 ++
           [FsEvent.unlink png],
         (moveStep force sqd (png.withSuffix ".jpg") png.stem ms
           (fsSave fs (png.withSuffix ".jpg") encSize)).2.2.2) ∧
      fsStat (fsUnlink (moveStep force sqd (png.withSuffix ".jpg") png.stem ms
          (fsSave fs (png.withSuffix ".jpg") encSize)).2.1 png)
        (moveStep force sqd (png.withSuffix ".jpg") png.stem ms
          (fsSave fs (png.withSuffix ".jpg") encSize)).1 = Except.ok osz := by
  unfold convert_file at hout ⊢
  cases hskip : (fsExists fs (png.withSuffix ".jpg") && !force)
  · simp only [hskip] at hout ⊢
    rcases hstat : fsStat fs png with e | isz0
    · simp [hstat] at hout
    · simp only [hstat] at hout ⊢
      rcases hdec : codec.decode png with e | img
      · simp [hdec] at hout
      · simp only [hdec] at hout ⊢
        rcases henc : codec.encodedSize (png.withSuffix ".jpg")
            (flatten_to_rgb img) q with e | encSize
        · simp [henc] at hout
        · simp only [henc] at hout ⊢
          rcases hfin : fsStat
              (fsUnlink (moveStep force sqd (png.withSuffix ".jpg") png.stem ms
                (fsSave fs (png.withSuffix ".jpg") encSize)).2.1 png)
              (moveStep force sqd (png.withSuffix ".jpg") png.stem ms
                (fsSave fs (png.withSuffix ".jpg") encSize)).1 with e | osz0
          · simp [hfin] at hout
          · simp only [hfin] at hout ⊢
            obtain ⟨h1, h2⟩ : isz0 = isz ∧ osz0 = osz := by
              simpa using hout
            subst h1; subst h2
            refine ⟨img, encSize, ?_, ?_, rfl, henc, ?_, hfin⟩
            · simp
            · rw [← fsStat_ok_iff, hstat]
            · simp
  · simp [hskip] at hout

theorem convert_file_events_shape (codec : Codec) (q : Int) (force ms : Bool)
    (sqd : List String) (png : FsPath) (fs : FS) :
    (convert_file codec q force ms sqd png fs).2.2.1 = [] ∨
    ∃ encSize,
      (convert_file codec q force ms sqd png fs).2.2.1 =
        FsEvent.save (png.withSuffix ".jpg") encSize ::
          (moveStep force sqd (png.withSuffix ".jpg") png.stem ms
            (fsSave fs (png.withSuffix ".jpg") encSize)).2.2.1 ++
          [FsEvent.unlink png] := by
  unfold convert_file
  cases hskip : (fsExists fs (png.withSuffix ".jpg") && !force)
  · simp only [hskip]
    rcases hstat : fsStat fs png with e | isz
    · simp [hstat]
    · simp only [hstat]
      rcases hdec : codec.decode png with e | img
      · simp [hdec]
      · simp only [hdec]
        rcases henc : codec.encodedSize (png.withSuffix ".jpg")
            (flatten_to_rgb img) q with e | encSize
        · simp [henc]
        · simp only [henc]
          rcases hfin : fsStat
              (fsUnlink (moveStep force sqd (png.withSuffix ".jpg") png.stem ms
                (fsSave fs (png.withSuffix ".jpg") encSize)).2.1 png)
              (moveStep force sqd (png.withSuffix ".jpg") png.stem ms
                (fsSave fs (png.withSuffix ".jpg") encSize)).1 with e | osz
          · exact Or.inr ⟨encSize, by simp [hfin]⟩
          · exact Or.inr ⟨encSize, by simp [hfin]⟩
  · simp [hskip]

theorem convert_file_trace_ok (codec : Codec) (q : Int) (force ms : Bool)
    (sqd : List String) (png : FsPath) (fs : FS) :
    unlinkOnlyAfterSave (png.withSuffix ".jpg") png
      (convert_file codec q force ms sqd png fs).2.2.1 = true ∧
    noMoveAfterUnlink png (convert_file codec q force ms sqd png fs).2.2.1 = true := by
  rcases convert_file_events_shape codec q force ms sqd png fs with h | ⟨enc, h⟩
  · rw [h]
    exact ⟨rfl, rfl⟩
  · rw [h]
    rcases moveStep_spec force sqd (png.withSuffix ".jpg") png.stem ms
        (fsSave fs (png.withSuffix ".jpg") enc) with ⟨_, hm⟩ | ⟨_, _, hm⟩ | ⟨_, _, hm⟩ <;>
      rw [hm] <;>
      simp [unlinkOnlyAfterSave, unlinkOnlyAfterSaveAux,
        noMoveAfterUnlink, noMoveAfterUnlinkAux]

/-! ### Helper lemmas about the conversion loop -/

section LoopLemmas

variable (codec : Codec) (q : Int) (force ms : Bool) (sqd : List String)

theorem processFiles_length (files : List FsPath) :
    ∀ fs t logs,
      (processFiles codec q force ms sqd files fs t logs).2.2.2.length =
        files.length := by
  induction files with
  | nil => intro fs t logs; rfl
  | cons f rest ih =>
    intro fs t logs
    simp only [processFiles]
    simp [ih]

theorem processFiles_errors (files : List FsPath) :
    ∀ fs t logs,
      (processFiles codec q force ms sqd files fs t logs).1.errors =
        t.errors +
          countErrs (processFiles codec q force ms sqd files fs t logs).2.2.2 := by
  induction files with
  | nil => intro fs t logs; simp [processFiles, countErrs]
  | cons f rest ih =>
    intro fs t logs
    simp only [processFiles]
    rcases hr : (convert_file codec q force ms sqd f fs).1 with ⟨s, i, o⟩ | e
    · cases s <;> simp [ih, bumpTotals, countErrs, List.countP_cons]
    · simp [ih, bumpTotals, countErrs, List.countP_cons]
      omega

theorem processFiles_counterSum (files : List FsPath) :
    ∀ fs t logs,
      (processFiles codec q force ms sqd files fs t logs).1.converted +
        (processFiles codec q force ms sqd files fs t logs).1.skipped +
        (processFiles codec q force ms sqd files fs t logs).1.errors =
      t.converted + t.skipped + t.errors + files.length := by
  induction files with
  | nil => intro fs t logs; simp [processFiles]
  | cons f rest ih =>
    intro fs t logs
    simp only [processFiles]
    rcases hr : (convert_file codec q force ms sqd f fs).1 with ⟨s, i, o⟩ | e
    · cases s <;> simp [ih, bumpTotals] <;> omega
    · simp [ih, bumpTotals]
      omega

theorem processFiles_mono (files : List FsPath) :
    ∀ fs t logs,
      t.converted ≤ (processFiles codec q force ms sqd files fs t logs).1.converted ∧
      t.skipped ≤ (processFiles codec q force ms sqd files fs t logs).1.skipped ∧
      t.errors ≤ (processFiles codec q force ms sqd files fs t logs).1.errors := by
  induction files with
  | nil => intro fs t logs; simp [processFiles]
  | cons f rest ih =>
    intro fs t logs
    simp only [processFiles]
    have hb : t.converted ≤
        (bumpTotals t (convert_file codec q force ms sqd f fs).1).converted ∧
        t.skipped ≤
          (bumpTotals t (convert_file codec q force ms sqd f fs).1).skipped ∧
        t.errors ≤
          (bumpTotals t (convert_file codec q force ms sqd f fs).1).errors := by
      rcases (convert_file codec q force ms sqd f fs).1 with ⟨s, i, o⟩ | e
      · cases s <;> simp [bumpTotals]
      · simp [bumpTotals]
    have IH := ih (convert_file codec q force ms sqd f fs).2.1
      (bumpTotals t (convert_file codec q force ms sqd f fs).1)
      (logs ++ stepLogs f (convert_file codec q force ms sqd f fs).1
        (convert_file codec q force ms sqd f fs).2.2.2)
    exact ⟨le_trans hb.1 IH.1, le_trans hb.2.1 IH.2.1, le_trans hb.2.2 IH.2.2⟩

theorem processFiles_saved (files : List FsPath) :
    ∀ fs t logs,
      (processFiles codec q force ms sqd files fs t logs).1.savedTotal =
        t.savedTotal +
          ((processFiles codec q force ms sqd files fs t logs).2.2.2.map
            savedOf).sum := by
  induction files with
  | nil => intro fs t logs; simp [processFiles]
  | cons f rest ih =>
    intro fs t logs
    simp only [processFiles]
    rcases hr : (convert_file codec q force ms sqd f fs).1 with ⟨s, i, o⟩ | e
    · cases s
      · simp [ih, bumpTotals, savedOf]
      · simp [ih, bumpTotals, savedOf]
        omega
    · simp [ih, bumpTotals, savedOf]

theorem processFiles_logs_mono (files : List FsPath) :
    ∀ fs t logs s, s ∈ logs →
      s ∈ (processFiles codec q force ms sqd files fs t logs).2.2.1 := by
  induction files with
  | nil => intro fs t logs s hs; exact hs
  | cons f rest ih =>
    intro fs t logs s hs
    simp only [processFiles]
    exact ih _ _ _ s (List.mem_append_left _ hs)

theorem processFiles_err_logged (files : List FsPath) :
    ∀ (fs : FS) (t : Totals) (logs : List String) (i : Nat) (f : FsPath)
      (e : String), files[i]? = some f →
      (processFiles codec q force ms sqd files fs t logs).2.2.2[i]? =
        some (CFOut.err e) →
      mkLog ("Error: " ++ pathStr f ++ " " ++ e) ∈
        (processFiles codec q force ms sqd files fs t logs).2.2.1 := by
  induction files with
  | nil => intro fs t logs i f e hf _; simp at hf
  | cons g rest ih =>
    intro fs t logs i f e hf hr
    cases i with
    | zero =>
      simp only [processFiles] at hr ⊢
      simp at hf
      subst hf
      have hr1 : (convert_file codec q force ms sqd g fs).1 = CFOut.err e := by
        simpa using hr
      apply processFiles_logs_mono
      rw [hr1]
      simp [stepLogs]
    | succ j =>
      simp only [processFiles] at hr ⊢
      simp at hf
      exact ih (convert_file codec q force ms sqd g fs).2.1
        (bumpTotals t (convert_file codec q force ms sqd g fs).1)
        (logs ++ stepLogs g (convert_file codec q force ms sqd g fs).1
          (convert_file codec q force ms sqd g fs).2.2.2)
        j f e hf (by simpa using hr)

end LoopLemmas

/-! ### Concrete fixtures used to exercise the theorems -/

/-- A square-suffixed PNG in the image tree. -/
def wPng : FsPath := ⟨["public", "images"], "icon-square", ".png"⟩

/-- File system holding only `wPng`, 1000 bytes. -/
def wFs : FS := [(wPng, 1000)]

/-- A two-pixel RGBA image: one fully transparent, one fully opaque. -/
def wImg : Img := ⟨PMode.RGBA, none, [[10, 20, 30, 0], [40, 50, 60, 255]], []⟩

/-- A codec that decodes everything to `wImg` and encodes to 600 bytes. -/
def wCodec : Codec := ⟨fun _ => Except.ok wImg, fun _ _ _ => Except.ok 600⟩

/-- A one-pixel grayscale image whose `transparency` info marks value 0 as
fully transparent. -/
def imgLT : Img := ⟨PMode.L, some 0, [[0]], []⟩

/-- A codec whose decode always raises. -/
def errCodec : Codec := ⟨fun _ => Except.error "broken", fun _ _ _ => Except.ok 0⟩

/-- A plain PNG in the image tree. -/
def cPng : FsPath := ⟨["public", "images"], "c", ".png"⟩

/-- File system in which `cPng`'s JPEG already exists. -/
def skipFs : FS := [(cPng, 500), (FsPath.withSuffix cPng ".jpg", 200)]

/-- Two plain PNGs used for the byte-savings accounting scenario. -/
def aPng : FsPath := ⟨["public", "images"], "a", ".png"⟩

/-- Second PNG of the byte-savings scenario. -/
def bPng : FsPath := ⟨["public", "images"], "b", ".png"⟩

/-- File system with `aPng` at 1000 bytes and `bPng` at 500 bytes. -/
def abFs : FS := [(aPng, 1000), (bPng, 500)]

/-- A codec encoding `aPng`'s JPEG to 600 bytes and `bPng`'s to 700. -/
def abCodec : Codec :=
  ⟨fun _ => Except.ok wImg,
   fun p _ _ =>
     if p = FsPath.withSuffix aPng ".jpg" then Except.ok 600 else Except.ok 700⟩

/-! ### Claim theorems -/

/-- C8: for every integer quality input Q, the clamped quality lies in
[40, 95]; values below 40 are raised to 40 and values above 95 are lowered
to 95, and in particular 40, 95, 82, 10, 999 clamp to 40, 95, 82, 40, 95. -/
theorem clamp_quality_spec (Q : Int) :
    40 ≤ clamp_quality Q ∧ clamp_quality Q ≤ 95 ∧
    (Q < 40 → clamp_quality Q = 40) ∧ (95 < Q → clamp_quality Q = 95) ∧
    clamp_quality 40 = 40 ∧ clamp_quality 95 = 95 ∧ clamp_quality 82 = 82 ∧
    clamp_quality 10 = 40 ∧ clamp_quality 999 = 95 := by
  refine ⟨?_, ?_, fun h => ?_, fun h => ?_,
    by decide, by decide, by decide, by decide, by decide⟩ <;>
    simp only [clamp_quality, max_def, min_def] <;> split_ifs <;> omega

/-- Witness for C8: the clamp raises 10 to 40 and lowers 999 to 95. -/
theorem clamp_quality_spec_holds : clamp_quality 10 = 40 ∧ clamp_quality 999 = 95 :=
  ⟨(clamp_quality_spec 10).2.2.1 (by decide),
   (clamp_quality_spec 999).2.2.2.1 (by decide)⟩

/-- C2 (counterexample): a grayscale image carrying transparency metadata
(mode L with a `transparency` info entry marking value 0) is NOT composited
onto white as the claim states: the code's first branch converts it
directly to RGB, leaving the transparent pixel black instead of white. -/
theorem flatten_policy_claim_false :
    imgLT.transparency.isSome = true ∧
    flatten_to_rgb imgLT ≠ specFlatten imgLT ∧
    flatten_to_rgb imgLT = [(0, 0, 0)] ∧
    specFlatten imgLT = [(255, 255, 255)] := by decide

/-- C2 (amended): images in mode RGB or L are always converted directly to
RGB, even when they carry transparency metadata; an image with an alpha
channel (RGBA or luminance+alpha) is composited onto an opaque white
background with its alpha channel as the blend mask; any other mode
carrying transparency metadata goes through the compositing path with the
image's last channel as the mask; remaining modes convert directly. -/
theorem flatten_policy_amended (img : Img) :
    ((img.mode = PMode.RGB ∨ img.mode = PMode.L) →
      flatten_to_rgb img = img.pixels.map (toRGBpx img)) ∧
    ((img.mode = PMode.RGBA ∨ img.mode = PMode.LA) →
      flatten_to_rgb img = specCompositeWhite img) ∧
    (img.mode ≠ PMode.RGB → img.mode ≠ PMode.L → img.mode ≠ PMode.RGBA →
      img.mode ≠ PMode.LA → img.transparency.isSome = true →
      flatten_to_rgb img = img.pixels.map (pasteWhitePx img)) ∧
    (img.mode ≠ PMode.RGB → img.mode ≠ PMode.L → img.mode ≠ PMode.RGBA →
      img.mode ≠ PMode.LA → img.transparency = none →
      flatten_to_rgb img = img.pixels.map (toRGBpx img)) := by
  refine ⟨fun h => ?_, fun h => ?_, fun h1 h2 h3 h4 h5 => ?_, fun h1 h2 h3 h4 h5 => ?_⟩
  · simp [flatten_to_rgb, h]
  · rcases h with h | h <;>
      simp [flatten_to_rgb, h, specCompositeWhite, specMask, pasteWhitePx]
  · simp [flatten_to_rgb, h1, h2, h3, h4, h5]
  · simp [flatten_to_rgb, h1, h2, h3, h4, h5]

/-- Witness for C2 (amended): the concrete RGBA fixture is composited onto
white exactly as the spec-side compositor prescribes. -/
theorem flatten_policy_amended_holds :
    flatten_to_rgb wImg = specCompositeWhite wImg :=
  (flatten_policy_amended wImg).2.1 (Or.inl rfl)

/-- C9: for every image with an alpha channel (RGBA or LA), the flattened
RGB buffer maps every fully transparent pixel to white (255,255,255) and
every fully opaque pixel to its original RGB value. -/
theorem flatten_alpha_endpoints (img : Img) (i : Nat) (px : List Nat)
    (hmode : img.mode = PMode.RGBA ∨ img.mode = PMode.LA)
    (hpx : img.pixels[i]? = some px)
    (hbound : ∀ c ∈ px, c ≤ 255) :
    (lastBand px = 0 → (flatten_to_rgb img)[i]? = some (255, 255, 255)) ∧
    (lastBand px = 255 → (flatten_to_rgb img)[i]? = some (toRGBpx img px)) := by
  have hmap : flatten_to_rgb img = img.pixels.map (pasteWhitePx img) := by
    rcases hmode with h | h <;> simp [flatten_to_rgb, h]
  have hget : (flatten_to_rgb img)[i]? = some (pasteWhitePx img px) := by
    rw [hmap, List.getElem?_map, hpx]
    rfl
  constructor
  · intro h0
    rw [hget]
    simp [pasteWhitePx, h0, blendChannel_transparent]
  · intro h255
    rw [hget]
    have h1 : (toRGBpx img px).1 ≤ 255 := by
      rcases hmode with h | h <;> simp [toRGBpx, h] <;>
        exact getD_le_255 px _ hbound
    have h2 : (toRGBpx img px).2.1 ≤ 255 := by
      rcases hmode with h | h <;> simp [toRGBpx, h] <;>
        exact getD_le_255 px _ hbound
    have h3 : (toRGBpx img px).2.2 ≤ 255 := by
      rcases hmode with h | h <;> simp [toRGBpx, h] <;>
        exact getD_le_255 px _ hbound
    show some (pasteWhitePx img px) = some (toRGBpx img px)
    unfold pasteWhitePx
    rw [h255, blendChannel_opaque _ h1, blendChannel_opaque _ h2,
      blendChannel_opaque _ h3]

/-- Witness for C9: in the RGBA fixture, the transparent pixel flattens to
white and the opaque pixel keeps its RGB value. -/
theorem flatten_alpha_endpoints_holds :
    (flatten_to_rgb wImg)[0]? = some (255, 255, 255) ∧
    (flatten_to_rgb wImg)[1]? = some (toRGBpx wImg [40, 50, 60, 255]) :=
  ⟨(flatten_alpha_endpoints wImg 0 [10, 20, 30, 0] (Or.inl rfl) rfl
      (by decide)).1 rfl,
   (flatten_alpha_endpoints wImg 1 [40, 50, 60, 255] (Or.inl rfl) rfl
      (by decide)).2 rfl⟩

/-- C1: whenever `convert_file` returns the converted outcome, the source
PNG no longer exists and a `.jpg` exists at the natural or relocated square
path; moreover in every run (converted or not) the trace deletes the
source only after a successful encode, and never before the optional
move. -/
theorem converted_deletes_source_after_encode (codec : Codec) (q : Int)
    (force ms : Bool) (sqd : List String) (png : FsPath) (fs : FS) :
    (∀ isz osz,
      (convert_file codec q force ms sqd png fs).1 =
        CFOut.ok Status.converted isz osz →
      fsExists (convert_file codec q force ms sqd png fs).2.1 png = false ∧
      (fsExists (convert_file codec q force ms sqd png fs).2.1
         (png.withSuffix ".jpg") = true ∨
       fsExists (convert_file codec q force ms sqd png fs).2.1
         (squareTarget sqd png.stem) = true)) ∧
    unlinkOnlyAfterSave (png.withSuffix ".jpg") png
      (convert_file codec q force ms sqd png fs).2.2.1 = true ∧
    noMoveAfterUnlink png (convert_file codec q force ms sqd png fs).2.2.1 = true := by
  refine ⟨fun isz osz hout => ?_, convert_file_trace_ok codec q force ms sqd png fs⟩
  obtain ⟨img, enc, hskip, hstat, hdec, henc, heq, hfin⟩ :=
    convert_file_success codec q force ms sqd png fs isz osz hout
  have hfs : (convert_file codec q force ms sqd png fs).2.1 =
      fsUnlink (moveStep force sqd (png.withSuffix ".jpg") png.stem ms
        (fsSave fs (png.withSuffix ".jpg") enc)).2.1 png := by
    rw [heq]
  constructor
  · rw [hfs]
    exact fsExists_unlink_self _ _
  · have hex : fsExists
        (fsUnlink (moveStep force sqd (png.withSuffix ".jpg") png.stem ms
          (fsSave fs (png.withSuffix ".jpg") enc)).2.1 png)
        (moveStep force sqd (png.withSuffix ".jpg") png.stem ms
          (fsSave fs (png.withSuffix ".jpg") enc)).1 = true :=
      fsExists_of_stat_ok hfin
    rcases moveStep_spec force sqd (png.withSuffix ".jpg") png.stem ms
        (fsSave fs (png.withSuffix ".jpg") enc) with ⟨_, hm⟩ | ⟨_, _, hm⟩ | ⟨_, _, hm⟩
    · left
      rw [hfs]
      rw [hm] at hex ⊢
      exact hex
    · left
      rw [hfs]
      rw [hm] at hex ⊢
      exact hex
    · right
      rw [hfs]
      rw [hm] at hex ⊢
      exact hex

/-- Witness for C1: the concrete square-move run converts, deletes the
source, leaves a JPEG, and its trace orders the deletion correctly. -/
theorem converted_deletes_source_after_encode_holds :
    fsExists (convert_file wCodec 82 false true squareDirPath wPng wFs).2.1
      wPng = false ∧
    (fsExists (convert_file wCodec 82 false true squareDirPath wPng wFs).2.1
       (wPng.withSuffix ".jpg") = true ∨
     fsExists (convert_file wCodec 82 false true squareDirPath wPng wFs).2.1
       (squareTarget squareDirPath wPng.stem) = true) ∧
    unlinkOnlyAfterSave (wPng.withSuffix ".jpg") wPng
      (convert_file wCodec 82 false true squareDirPath wPng wFs).2.2.1 = true ∧
    noMoveAfterUnlink wPng
      (convert_file wCodec 82 false true squareDirPath wPng wFs).2.2.1 = true :=
  ⟨((converted_deletes_source_after_encode wCodec 82 false true squareDirPath
      wPng wFs).1 1000 600 (by decide)).1,
   ((converted_deletes_source_after_encode wCodec 82 false true squareDirPath
      wPng wFs).1 1000 600 (by decide)).2,
   (converted_deletes_source_after_encode wCodec 82 false true squareDirPath
      wPng wFs).2⟩

/-- C6: if the candidate output path already exists and force-overwrite is
false, `convert_file` returns the skipped outcome with zero bytes for both
sizes, leaves the file system unchanged, performs no file-system event and
prints nothing. -/
theorem skip_rule_frame (codec : Codec) (q : Int) (ms : Bool)
    (sqd : List String) (png : FsPath) (fs : FS)
    (hex : fsExists fs (png.withSuffix ".jpg") = true) :
    convert_file codec q false ms sqd png fs =
      (CFOut.ok Status.skipped 0 0, fs, [], []) := by
  unfold convert_file
  simp [hex]

/-- Witness for C6: the concrete file system with a pre-existing JPEG is
skipped untouched. -/
theorem skip_rule_frame_holds :
    convert_file wCodec 82 false false squareDirPath cPng skipFs =
      (CFOut.ok Status.skipped 0 0, skipFs, [], []) :=
  skip_rule_frame wCodec 82 false squareDirPath cPng skipFs (by decide)

/-- C3: with move-square enabled and a `-square` stem, a converted file's
JPEG ends at `<square_dir>/<stripped stem>.jpg` with no JPEG left at the
natural path, and the reported output size is read from that target;
except when the target already exists and force is off, in which case a
notice is logged, the JPEG stays at its natural path, and the reported
output size is read from there. -/
theorem square_relocation (codec : Codec) (q : Int) (force ms : Bool)
    (sqd : List String) (png : FsPath) (fs : FS) (isz osz : Nat)
    (hms : ms = true) (hsq : hasSquareSuffix png.stem = true)
    (hext : png.ext ≠ ".jpg")
    (hout : (convert_file codec q force ms sqd png fs).1 =
      CFOut.ok Status.converted isz osz) :
    ((fsExists fs (squareTarget sqd png.stem) && !force) = true →
      fsExists (convert_file codec q force ms sqd png fs).2.1
        (png.withSuffix ".jpg") = true ∧
      fsLookup (convert_file codec q force ms sqd png fs).2.1
        (png.withSuffix ".jpg") = some osz ∧
      mkLog ("Exists, skip move (use --force): " ++
        pathStr (squareTarget sqd png.stem)) ∈
        (convert_file codec q force ms sqd png fs).2.2.2) ∧
    ((fsExists fs (squareTarget sqd png.stem) && !force) = false →
      fsExists (convert_file codec q force ms sqd png fs).2.1
        (squareTarget sqd png.stem) = true ∧
      fsLookup (convert_file codec q force ms sqd png fs).2.1
        (squareTarget sqd png.stem) = some osz ∧
      fsExists (convert_file codec q force ms sqd png fs).2.1
        (png.withSuffix ".jpg") = false) := by
  obtain ⟨img, enc, hskip, hstat, hdec, henc, heq, hfin⟩ :=
    convert_file_success codec q force ms sqd png fs isz osz hout
  have htj : squareTarget sqd png.stem ≠ png.withSuffix ".jpg" := fun h =>
    stripSquare_ne png.stem hsq (congrArg FsPath.stem h)
  have hpj : png ≠ png.withSuffix ".jpg" := fun h =>
    hext (congrArg FsPath.ext h)
  have hexeq : fsExists (fsSave fs (png.withSuffix ".jpg") enc)
      (squareTarget sqd png.stem) = fsExists fs (squareTarget sqd png.stem) := by
    unfold fsExists
    rw [fsLookup_save, if_neg fun hh => htj hh.symm]
  have hlkp : fsLookup (fsSave fs (png.withSuffix ".jpg") enc)
      (png.withSuffix ".jpg") = some enc := by
    rw [fsLookup_save, if_pos rfl]
  rcases moveStep_spec force sqd (png.withSuffix ".jpg") png.stem ms
      (fsSave fs (png.withSuffix ".jpg") enc) with ⟨hc, hm⟩ | ⟨hc, ht, hm⟩ | ⟨hc, ht, hm⟩
  · rw [hms, hsq] at hc
    simp at hc
  · -- target exists, force off: the JPEG stays at its natural path
    simp only [hm] at hfin
    rw [hexeq] at ht
    have hstay : fsLookup (fsUnlink (fsSave fs (png.withSuffix ".jpg") enc) png)
        (png.withSuffix ".jpg") = some enc := by
      unfold fsUnlink
      rw [fsLookup_remove, if_neg fun hh => hpj hh.symm, hlkp]
    have hosz : enc = osz := by
      rw [fsStat_ok_iff, hstay] at hfin
      exact Option.some.inj hfin
    refine ⟨fun _ => ?_, fun hcond => ?_⟩
    · simp only [heq, hm]
      refine ⟨?_, ?_, ?_⟩
      · simp [fsExists, hstay]
      · rw [hstay, hosz]
      · simp
    · rw [ht] at hcond
      cases hcond
  · -- no conflict: the JPEG is moved to the square target
    simp only [hm] at hfin
    rw [hexeq] at ht
    refine ⟨fun hcond => ?_, fun _ => ?_⟩
    · rw [ht] at hcond
      cases hcond
    · have hexi : fsExists
          (fsUnlink (fsMove (fsSave fs (png.withSuffix ".jpg") enc)
            (png.withSuffix ".jpg") (squareTarget sqd png.stem)) png)
          (squareTarget sqd png.stem) = true := fsExists_of_stat_ok hfin
      have hlk2 : fsLookup
          (fsUnlink (fsMove (fsSave fs (png.withSuffix ".jpg") enc)
            (png.withSuffix ".jpg") (squareTarget sqd png.stem)) png)
          (squareTarget sqd png.stem) = some osz := by
        rw [← fsStat_ok_iff]
        exact hfin
      have hgone : fsLookup
          (fsUnlink (fsMove (fsSave fs (png.withSuffix ".jpg") enc)
            (png.withSuffix ".jpg") (squareTarget sqd png.stem)) png)
          (png.withSuffix ".jpg") = none := by
        unfold fsUnlink fsMove
        rw [hlkp]
        rw [fsLookup_remove, if_neg fun hh => hpj hh.symm]
        rw [fsLookup_save, if_neg htj]
        rw [fsLookup_remove, if_pos rfl]
      simp only [heq, hm]
      exact ⟨hexi, hlk2, by simp [fsExists, hgone]⟩

/-- Witness for C3: the concrete square-move run relocates the JPEG to
`public/square/icon.jpg`, reports its 600 bytes from there, and leaves no
JPEG at the natural path. -/
theorem square_relocation_holds :
    fsExists (convert_file wCodec 82 false true squareDirPath wPng wFs).2.1
      (squareTarget squareDirPath wPng.stem) = true ∧
    fsLookup (convert_file wCodec 82 false true squareDirPath wPng wFs).2.1
      (squareTarget squareDirPath wPng.stem) = some 600 ∧
    fsExists (convert_file wCodec 82 false true squareDirPath wPng wFs).2.1
      (wPng.withSuffix ".jpg") = false :=
  (square_relocation wCodec 82 false true squareDirPath wPng wFs 1000 600
    rfl (by decide) (by decide) (by decide)).2 (by decide)

/-- C5: every file of the batch yields exactly one outcome (no per-file
error aborts the loop), each caught error adds exactly one to the errored
count, and every caught error is logged with the offending path. -/
theorem continue_on_error (codec : Codec) (q : Int) (force ms : Bool)
    (sqd : List String) (files : List FsPath) (fs : FS) (t : Totals)
    (logs : List String) :
    (processFiles codec q force ms sqd files fs t logs).2.2.2.length =
      files.length ∧
    (processFiles codec q force ms sqd files fs t logs).1.errors =
      t.errors +
        countErrs (processFiles codec q force ms sqd files fs t logs).2.2.2 ∧
    ∀ (i : Nat) (f : FsPath) (e : String), files[i]? = some f →
      (processFiles codec q force ms sqd files fs t logs).2.2.2[i]? =
        some (CFOut.err e) →
      mkLog ("Error: " ++ pathStr f ++ " " ++ e) ∈
        (processFiles codec q force ms sqd files fs t logs).2.2.1 :=
  ⟨processFiles_length codec q force ms sqd files fs t logs,
   processFiles_errors codec q force ms sqd files fs t logs,
   fun i f e hf hr =>
     processFiles_err_logged codec q force ms sqd files fs t logs i f e hf hr⟩

/-- Witness for C5: in the concrete one-file run whose decode raises, the
error line with the offending path is in the final log. -/
theorem continue_on_error_holds :
    mkLog ("Error: " ++ pathStr cPng ++ " " ++ "broken") ∈
      (processFiles errCodec 82 false false squareDirPath [cPng]
        [(cPng, 10)] ⟨0, 0, 0, 0⟩ []).2.2.1 :=
  (continue_on_error errCodec 82 false false squareDirPath [cPng]
    [(cPng, 10)] ⟨0, 0, 0, 0⟩ []).2.2 0 cPng "broken" rfl rfl

/-- C7: the loop's byte-savings total is the running total plus the sum
over the produced outcomes of `max(0, input − output)`, which is zero for
skipped and errored outcomes and never negative; on the concrete scenario
with converted sizes (1000, 600) and (500, 700) the reported total is
400. -/
theorem savings_accounting (codec : Codec) (q : Int) (force ms : Bool)
    (sqd : List String) (files : List FsPath) (fs : FS) (t : Totals)
    (logs : List String) :
    ((processFiles codec q force ms sqd files fs t logs).1.savedTotal =
      t.savedTotal +
        ((processFiles codec q force ms sqd files fs t logs).2.2.2.map
          savedOf).sum) ∧
    savedDelta 1000 600 + savedDelta 500 700 = 400 ∧
    (processFiles abCodec 82 false false squareDirPath [aPng, bPng] abFs
      ⟨0, 0, 0, 0⟩ []).1.savedTotal = 400 :=
  ⟨processFiles_saved codec q force ms sqd files fs t logs, by decide, by decide⟩

/-- C10: starting from zero counters, converted + skipped + errored equals
the number of discovered files, and from any intermediate counter state
the loop only ever increases each counter. -/
theorem counters_partition (codec : Codec) (q : Int) (force ms : Bool)
    (sqd : List String) (files : List FsPath) (fs : FS) (logs : List String) :
    ((processFiles codec q force ms sqd files fs ⟨0, 0, 0, 0⟩ logs).1.converted +
      (processFiles codec q force ms sqd files fs ⟨0, 0, 0, 0⟩ logs).1.skipped +
      (processFiles codec q force ms sqd files fs ⟨0, 0, 0, 0⟩ logs).1.errors =
      files.length) ∧
    ∀ t : Totals,
      t.converted ≤
        (processFiles codec q force ms sqd files fs t logs).1.converted ∧
      t.skipped ≤ (processFiles codec q force ms sqd files fs t logs).1.skipped ∧
      t.errors ≤ (processFiles codec q force ms sqd files fs t logs).1.errors := by
  constructor
  · have h := processFiles_counterSum codec q force ms sqd files fs ⟨0, 0, 0, 0⟩ logs
    simpa using h
  · intro t
    exact processFiles_mono codec q force ms sqd files fs t logs

/-- C4: the exit status is 1 exactly when the primary image directory is
missing at startup or the errored count at the end of the run is nonzero,
and it is 0 in every other run (the only two values it takes). -/
theorem exit_code_iff (codec : Codec) (args : Args) (rootExists : Bool)
    (files : List FsPath) (fs : FS) :
    ((mainRun codec args rootExists files fs).1 = 1 ↔
      (rootExists = false ∨
        (mainRun codec args rootExists files fs).2.1.errors ≠ 0)) ∧
    ((mainRun codec args rootExists files fs).1 = 0 ∨
      (mainRun codec args rootExists files fs).1 = 1) := by
  cases rootExists
  · simp [mainRun]
  · simp only [mainRun]
    by_cases h : (processFiles codec (clamp_quality args.quality) args.force
        args.moveSquare squareDirPath files fs ⟨0, 0, 0, 0⟩ []).1.errors = 0
    · simp [h]
    · simp [h]

end Png2Jpg
